import Mathlib

/-!
Verification of the ArchaeologyWala single-file site core
(`archaeology_wala_a_world_by_pryank_wadhera_single_file_site.jsx`).

The JavaScript/JSX source is shallowly embedded below.  Strings are modelled
as Lean `String` (a wrapper around `List Char`), and the JS string operations
(`split`, `trim`, `replace` with the concrete regular expressions appearing in
the source, truthiness tests on strings) are implemented character by
character, faithful to ECMAScript semantics on the relevant inputs.  The
model of `toLowerCase` and of case-insensitive matching is per-character
ASCII case folding, which agrees with JS on every ASCII string (all corpus
data, slugs and glossary terms in the source are ASCII).
-/

namespace ArchWala

/-- The ECMAScript whitespace class matched by the regex class used in the
source's regular expressions (the set matched by a backslash-s atom):
space, tab, LF, VT, FF, CR, NBSP, and the Unicode space separators. -/
def isJsWs (c : Char) : Bool :=
  let n := c.toNat
  n == 32 || n == 9 || n == 10 || n == 11 || n == 12 || n == 13 ||
  n == 0xa0 || n == 0x1680 ||
  (decide (0x2000 ≤ n) && decide (n ≤ 0x200a)) ||
  n == 0x2028 || n == 0x2029 || n == 0x202f || n == 0x205f ||
  n == 0x3000 || n == 0xfeff

/-- ECMAScript line terminators (the characters NOT matched by the regex
dot atom): LF, CR, LS, PS. -/
def isLineTerm (c : Char) : Bool :=
  let n := c.toNat
  n == 10 || n == 13 || n == 0x2028 || n == 0x2029

/-- Characters kept by the strip step of `slugify`: the source deletes every
character matching the negated class of lowercase letters, digits, whitespace
and the hyphen, so these are the characters that survive. -/
def keepChar (c : Char) : Bool :=
  let n := c.toNat
  (decide (97 ≤ n) && decide (n ≤ 122)) ||
  (decide (48 ≤ n) && decide (n ≤ 57)) ||
  isJsWs c || n == 45

/-- Model of JS `String.prototype.trimStart` for the whitespace set above
(the leading half of `trim()`). -/
def trimStart (l : List Char) : List Char := l.dropWhile isJsWs

/-- Model of JS `String.prototype.trimEnd` (the trailing half of `trim()`):
removes the maximal trailing run of whitespace. -/
def trimEnd : List Char → List Char
  | [] => []
  | c :: cs =>
    match trimEnd cs with
    | [] => if isJsWs c then [] else [c]
    | r => c :: r

/-- Model of `.replace` of every whitespace run by a single hyphen (the
global whitespace-run regex replacement closing `slugify`).  The flag records
whether the scan is currently inside a whitespace run (a hyphen is emitted
only at the first character of each run). -/
def collapseRuns : Bool → List Char → List Char
  | _, [] => []
  | inRun, c :: cs =>
    if isJsWs c then
      if inRun then collapseRuns true cs
      else '-' :: collapseRuns true cs
    else c :: collapseRuns false cs

/-- `slugify` from the source: lower-case, delete every character outside
lowercase letters / digits / whitespace / hyphen, trim, then replace each
whitespace run by a single hyphen. -/
def slugify (s : String) : String :=
  ⟨collapseRuns false (trimEnd (trimStart ((s.toList.map Char.toLower).filter keepChar)))⟩

/-- The maximal whitespace-separated words of a character list, in order
(empty words do not occur).  The accumulator holds the reversed current word. -/
def wordsAux : List Char → List Char → List (List Char)
  | cur, [] => if cur.isEmpty then [] else [cur.reverse]
  | cur, c :: cs =>
    if isJsWs c then
      if cur.isEmpty then wordsAux [] cs
      else cur.reverse :: wordsAux [] cs
    else wordsAux (c :: cur) cs

/-- The whitespace-separated words of a character list. -/
def wordsOf (l : List Char) : List (List Char) := wordsAux [] l

/-- Joins word lists with single hyphens. -/
def joinWords : List (List Char) → List Char
  | [] => []
  | [w] => w
  | w :: ws => w ++ '-' :: joinWords ws

/-- Slugification as the specification describes it in its own words:
lower-case, strip all characters outside the allowed class, and emit the
remaining whitespace-separated words joined by single hyphens (which is what
"trim, collapse internal whitespace runs to a single hyphen" produces). -/
def slugifySpec (s : String) : String :=
  ⟨joinWords (wordsOf ((s.toList.map Char.toLower).filter keepChar))⟩

/-- Model of JS `split` on a whitespace-run regex as used by the reading-time
estimator: the resulting fields, including the empty fields that JS `split`
produces at the ends when the string starts or ends with whitespace (and the
single empty field produced for the empty string).  The Bool flag records
whether the scan is inside a separator run; the list accumulator holds the
reversed current field. -/
def splitWsFieldsAux : Bool → List Char → List Char → List (List Char)
  | _, cur, [] => [cur.reverse]
  | inRun, cur, c :: cs =>
    if isJsWs c then
      if inRun then splitWsFieldsAux true cur cs
      else cur.reverse :: splitWsFieldsAux true [] cs
    else splitWsFieldsAux false (c :: cur) cs

/-- The fields of a JS whitespace-run `split`. -/
def splitWsFields (l : List Char) : List (List Char) := splitWsFieldsAux false [] l

/-- `Math.round (n / 220)` for a natural `n`, computed exactly:
round-half-up of the rational `n / 220`. -/
def jsRound220 (n : Nat) : Nat := (2 * n + 220) / 440

/-- `estimateMinutes` from the source: `Math.max(3, Math.round(words / 220))`
where `words` is the length of the whitespace `split` of the body. -/
def estimateMinutes (md : String) : Nat :=
  Nat.max 3 (jsRound220 (splitWsFields md.toList).length)

/-- Splits a character list at every occurrence of one character (JS `split`
on a single-character regex, as the TOC scan does with the newline). -/
def splitOnCharAux (sep : Char) : List Char → List Char → List (List Char)
  | cur, [] => [cur.reverse]
  | cur, c :: cs =>
    if c == sep then cur.reverse :: splitOnCharAux sep [] cs
    else splitOnCharAux sep (c :: cur) cs

/-- JS `body.split` on the newline regex. -/
def splitOnChar (sep : Char) (l : List Char) : List (List Char) :=
  splitOnCharAux sep [] l

-- ---------------------------------------------------------------------------
-- Data model
-- ---------------------------------------------------------------------------

/-- A published post of the corpus. -/
structure Post where
  slug : String
  title : String
  author : String
  date : String
  hero : String
  tags : List String
  minutes : Nat
  body : String
deriving DecidableEq

/-- An editorial submission record (status is always the pending status while
the record exists). -/
structure Submission where
  id : Nat
  name : String
  email : String
  affiliation : String
  title : String
  tags : String
  cover : String
  summary : String
  body : String
  agree : Bool
  status : String
  date : String
deriving DecidableEq

/-- The draft contribution form. -/
structure ContribForm where
  name : String
  email : String
  affiliation : String
  title : String
  tags : String
  cover : String
  summary : String
  body : String
  agree : Bool
deriving DecidableEq

/-- A table-of-contents entry produced by the article view. -/
structure TocEntry where
  level : Nat
  text : String
  id : String
deriving DecidableEq

-- ---------------------------------------------------------------------------
-- Bookmarks and search
-- ---------------------------------------------------------------------------

/-- `toggleBookmark` from the source: remove every occurrence of the slug if
present, otherwise append it. -/
def toggleBookmark (slug : String) (bm : List String) : List String :=
  if bm.contains slug then bm.filter (fun s => s ≠ slug) else bm ++ [slug]

/-- The `filtered` memo from the source: the full corpus for the empty query,
otherwise the items of the fuzzy search.  The external fuzzy-matching library
is modelled as an abstract ranked-search function over the indexed corpus. -/
def filteredPosts (search : List Post → String → List Post)
    (posts : List Post) (query : String) : List Post :=
  if query = "" then posts else search posts query

/-- The blog listing's tag narrowing (`shown` in `BlogIndex`): with a selected
tag, keep the posts whose tag list contains it; with no tag, show all. -/
def blogShown (l : List Post) (tag : Option String) : List Post :=
  match tag with
  | some t => l.filter (fun p => p.tags.contains t)
  | none => l

/-- The list the blog page displays: `BlogIndex` receives the search results
(`filtered`) as its post list and applies the tag narrowing to them. -/
def displayedPosts (search : List Post → String → List Post)
    (posts : List Post) (query : String) (tag : Option String) : List Post :=
  blogShown (filteredPosts search posts query) tag

-- ---------------------------------------------------------------------------
-- Submission workflow
-- ---------------------------------------------------------------------------

/-- The cleared draft form (what `submit` resets the form to). -/
def emptyForm : ContribForm :=
  { name := "", email := "", affiliation := "", title := "", tags := "",
    cover := "", summary := "", body := "", agree := false }

/-- The submission record `submit` creates: the form fields together with the
timestamp id, the pending status and the submission date. -/
def mkSubmission (now : Nat) (dateStr : String) (f : ContribForm) : Submission :=
  { id := now, name := f.name, email := f.email, affiliation := f.affiliation,
    title := f.title, tags := f.tags, cover := f.cover, summary := f.summary,
    body := f.body, agree := f.agree, status := "pending", date := dateStr }

/-- `submit` from the source, acting on the pending list and the draft form:
if any required field is empty (falsy) or the consent box is unchecked, the
state is unchanged; otherwise the new submission is prepended and the form is
cleared. -/
def submitAction (now : Nat) (dateStr : String)
    (st : List Submission × ContribForm) : List Submission × ContribForm :=
  if st.2.name = "" ∨ st.2.email = "" ∨ st.2.title = "" ∨ st.2.body = "" ∨
      st.2.agree = false
  then st
  else (mkSubmission now dateStr st.2 :: st.1, emptyForm)

/-- The fixed placeholder hero image used when a submission has no cover. -/
def placeholderHero : String :=
  "https://images.unsplash.com/photo-1541417904950-b855846fe074?q=80&w=1600&auto=format&fit=crop"

/-- Tag parsing in `approve`: an empty (falsy) raw string gives no tags;
otherwise split on commas, trim each entry, and drop the empty (falsy) ones. -/
def parseTags (raw : String) : List String :=
  if raw = "" then []
  else (((splitOnChar ',' raw.toList).map
    (fun t => trimEnd (trimStart t))).filter (fun t => ¬ t.isEmpty)).map
    (fun t => String.mk t)

/-- The slug `approve` derives: `slugify` of the title, with the fallback to
the id-based slug exactly when the slugified title is the empty (falsy)
string. -/
def derivedSlug (s : Submission) : String :=
  if slugify s.title = "" then "submission-" ++ Nat.repr s.id else slugify s.title

/-- The post `approve` constructs from a pending submission (`today` is the
approval date). -/
def mkApprovedPost (s : Submission) (today : String) : Post :=
  { slug := derivedSlug s,
    title := s.title,
    author := s.name,
    date := today,
    hero := if s.cover = "" then placeholderHero else s.cover,
    tags := parseTags s.tags,
    minutes := estimateMinutes s.body,
    body := "# " ++ s.title ++ "\n\n" ++ s.body }

/-- `approve` from the source, acting on the corpus and pending list: the new
post is prepended to the corpus and every pending record with the approved id
is removed. -/
def approveAction (s : Submission) (today : String)
    (st : List Post × List Submission) : List Post × List Submission :=
  (mkApprovedPost s today :: st.1, st.2.filter (fun x => x.id ≠ s.id))

/-- How many posts of a corpus carry a given slug. -/
def countSlug (posts : List Post) (sl : String) : Nat :=
  (posts.filter (fun p => p.slug = sl)).length

-- ---------------------------------------------------------------------------
-- Table of contents (ArticleView heading scan)
-- ---------------------------------------------------------------------------

/-- The result of executing the heading regex (one-to-six marker characters,
then one-or-more whitespace, then one-or-more dot-matched characters, anchored
at both ends) against one line: the marker count and the second captured
group.  The closed form below is what the backtracking regex engine produces:
the leading marker run must have length one to six and be followed by
whitespace; if anything follows the maximal whitespace run, that remainder is
the text capture provided it contains no line terminator (the dot atom cannot
match one, and shortening the greedy whitespace match only grows the
remainder); if nothing follows the run, the greedy whitespace match backtracks
by one character, so a run of length at least two yields its final character
as the text capture (when that character is dot-matchable). -/
def execHeadingCore (h : Nat) : List Char → Option (Nat × List Char)
  | [] => none
  | c :: rest0 =>
    if 1 ≤ h ∧ h ≤ 6 ∧ isJsWs c = true then
      match (c :: rest0).dropWhile isJsWs with
      | [] =>
        if 2 ≤ (c :: rest0).length then
          match (c :: rest0).getLast? with
          | some d => if isLineTerm d = true then none else some (h, [d])
          | none => none
        else none
      | e :: es =>
        if (e :: es).all (fun x => !(isLineTerm x)) then some (h, e :: es)
        else none
    else none

def execHeading (l : List Char) : Option (Nat × List Char) :=
  execHeadingCore (l.takeWhile (fun c => c == '#')).length
    (l.drop (l.takeWhile (fun c => c == '#')).length)

/-- The backquote character (the inline code marker the TOC scan strips). -/
def backquoteChar : Char := Char.ofNat 96

/-- The TOC entry of a single body line, if the line is a heading: the level
is the marker count, the text is the captured remainder with backquotes
removed, and the id is its slugification. -/
def headingEntry (ln : List Char) : Option TocEntry :=
  (execHeading ln).map (fun pr =>
    let t : String := ⟨pr.2.filter (fun c => ¬ c = backquoteChar)⟩
    { level := pr.1, text := t, id := slugify t })

/-- The TOC effect of `ArticleView`: split the body into lines at newlines
and collect the heading entries in document order. -/
def buildToc (body : String) : List TocEntry :=
  (splitOnChar '\n' body.toList).filterMap headingEntry

/-- Removal of the markdown inline emphasis markers (asterisk and low line)
from a string — the reading of "inline emphasis markers stripped" that the
specification's wording asserts for TOC texts. -/
def stripEmphasisSpec (s : String) : String :=
  ⟨s.toList.filter (fun c => ¬ (c = '*' ∨ c = '_'))⟩

-- ---------------------------------------------------------------------------
-- Glossary annotation (ArticleView text renderer)
-- ---------------------------------------------------------------------------

/-- The glossary object of the source, as a lookup. -/
def glossaryGet (k : String) : Option String :=
  if k = "typological" then
    some "Classification of artifacts based on shared attributes."
  else if k = "sherds" then
    some "Broken pieces of ceramic material found at sites."
  else if k = "chronology" then
    some "The dating and sequencing of past events and materials."
  else none

/-- The alternatives of the splitting regex of the text renderer, in the
order the engine tries them (the greedy optional final letter of the last
alternative makes it try the longer form first). -/
def glossaryPats : List (List Char) :=
  ["typological".toList, "sherds".toList, "chronologies".toList,
   "chronology".toList]

/-- Case-insensitive (ASCII folding) match of one lowercase pattern against a
prefix of the input; returns the matched original characters and the rest. -/
def matchPat : List Char → List Char → Option (List Char × List Char)
  | [], l => some ([], l)
  | _ :: _, [] => none
  | p :: ps, c :: cs =>
    if c.toLower == p then
      match matchPat ps cs with
      | some pr => some (c :: pr.1, pr.2)
      | none => none
    else none

/-- First alternative that matches at the current position. -/
def tryPats : List (List Char) → List Char → Option (List Char × List Char)
  | [], _ => none
  | p :: ps, l =>
    match matchPat p l with
    | some pr => some pr
    | none => tryPats ps l

/-- JS `split` with a capturing group: the fields interleaved with the
matched separators, scanning left to right (including the empty fields JS
produces around matches at the ends).  The fuel argument, initialised to the
input length, only bounds the recursion; it never runs out because every step
consumes at least one character. -/
def glossarySplitAux : Nat → List Char → List Char → List (List Char)
  | _, acc, [] => [acc.reverse]
  | 0, acc, rest => [acc.reverse ++ rest]
  | Nat.succ fuel, acc, c :: cs =>
    match tryPats glossaryPats (c :: cs) with
    | some pr => acc.reverse :: pr.1 :: glossarySplitAux fuel [] pr.2
    | none => glossarySplitAux fuel (c :: acc) cs

/-- The `text.split` of the glossary renderer. -/
def glossarySplit (l : List Char) : List (List Char) :=
  glossarySplitAux l.length [] l

/-- The lookup key the renderer computes for a part: lower-case, then remove
one trailing letter s (the naive singularization). -/
def singularKey (part : List Char) : List Char :=
  let low := part.map Char.toLower
  match low.getLast? with
  | some c => if c == 's' then low.dropLast else low
  | none => low

/-- The text renderer of `ArticleView`: each part of the split, paired with
whether it is wrapped in a glossary tooltip (the glossary lookup of its
singularized key succeeds). -/
def annotateText (s : String) : List (String × Bool) :=
  (glossarySplit s.toList).map (fun part =>
    (String.mk part, (glossaryGet ⟨singularKey part⟩).isSome))

-- ---------------------------------------------------------------------------
-- Persistent store (loadLS / saveLS)
-- ---------------------------------------------------------------------------

/-- `loadLS` from the source.  The storage read is modelled as an exceptional
computation producing the stored string, if any; JSON parsing as an
exceptional partial function.  The source catches every failure and falls
back, and its truthiness test on the raw value also falls back on the empty
string (which no JSON serialisation produces and which the parser rejects). -/
def loadLS {α : Type} (getItem : Except Unit (Option String))
    (parse : String → Except Unit α) (fallback : α) : α :=
  match getItem with
  | Except.error _ => fallback
  | Except.ok none => fallback
  | Except.ok (some v) =>
    if v = "" then fallback
    else
      match parse v with
      | Except.error _ => fallback
      | Except.ok x => x

/-- `saveLS` from the source, paired with the in-memory mutation that
triggered it: the write is attempted (an exceptional computation on the
storage association list) and any failure is swallowed, so the in-memory
value is the new one in every case. -/
def mutateWithPersist {α : Type} (newVal : α)
    (setItem : Except Unit Unit) (store : List (String × String))
    (key ser : String) : α × List (String × String) :=
  (newVal,
    match setItem with
    | Except.error _ => store
    | Except.ok _ => (key, ser) :: store.filter (fun kv => kv.1 ≠ key))

-- ---------------------------------------------------------------------------
-- Helper lemmas: words, runs, trimming and collapsing
-- ---------------------------------------------------------------------------

lemma wordsAux_nil_nil : wordsAux [] [] = [] := rfl

lemma wordsAux_cons_ws (cur : List Char) (c : Char) (cs : List Char)
    (h : isJsWs c = true) (hcur : cur.isEmpty = false) :
    wordsAux cur (c :: cs) = cur.reverse :: wordsAux [] cs := by
  simp [wordsAux, h, hcur]

lemma wordsAux_nil_ws (c : Char) (cs : List Char) (h : isJsWs c = true) :
    wordsAux [] (c :: cs) = wordsAux [] cs := by
  simp [wordsAux, h]

lemma wordsAux_cons_nonws (cur : List Char) (c : Char) (cs : List Char)
    (h : isJsWs c = false) :
    wordsAux cur (c :: cs) = wordsAux (c :: cur) cs := by
  simp [wordsAux, h]

lemma collapseRuns_nil (b : Bool) : collapseRuns b [] = [] := by
  cases b <;> rfl

lemma collapseRuns_true_ws (c : Char) (cs : List Char) (h : isJsWs c = true) :
    collapseRuns true (c :: cs) = collapseRuns true cs := by
  simp [collapseRuns, h]

lemma collapseRuns_false_ws (c : Char) (cs : List Char) (h : isJsWs c = true) :
    collapseRuns false (c :: cs) = '-' :: collapseRuns true cs := by
  simp [collapseRuns, h]

lemma collapseRuns_cons_nonws (b : Bool) (c : Char) (cs : List Char)
    (h : isJsWs c = false) :
    collapseRuns b (c :: cs) = c :: collapseRuns false cs := by
  cases b <;> simp [collapseRuns, h]

lemma trimEnd_cons (c : Char) (cs : List Char) :
    trimEnd (c :: cs) =
      if (trimEnd cs).isEmpty then (if isJsWs c then [] else [c])
      else c :: trimEnd cs := by
  cases h : trimEnd cs with
  | nil => simp [trimEnd, h]
  | cons a t => simp [trimEnd, h]

lemma isEmpty_false_of_ne_nil {l : List Char} (h : l ≠ []) :
    l.isEmpty = false := by
  cases l with
  | nil => exact absurd rfl h
  | cons a t => rfl

lemma wordsAux_word (w : List Char) :
    ∀ (r cur : List Char), (∀ c ∈ w, isJsWs c = false) →
    wordsAux cur (w ++ r) = wordsAux (w.reverse ++ cur) r := by
  induction w with
  | nil => intro r cur _; simp
  | cons c w' ih =>
    intro r cur hw
    have hc : isJsWs c = false := hw c (by simp)
    rw [List.cons_append, wordsAux_cons_nonws cur c (w' ++ r) hc,
      ih r (c :: cur) (fun x hx => hw x (by simp [hx]))]
    simp

lemma wordsAux_allws (run : List Char) :
    ∀ (r : List Char), (∀ c ∈ run, isJsWs c = true) →
    wordsAux [] (run ++ r) = wordsAux [] r := by
  induction run with
  | nil => intro r _; simp
  | cons c run' ih =>
    intro r hr
    have hc : isJsWs c = true := hr c (by simp)
    rw [List.cons_append, wordsAux_nil_ws c (run' ++ r) hc]
    exact ih r (fun x hx => hr x (by simp [hx]))

lemma wordsAux_run_emit (run r cur : List Char)
    (hr : ∀ c ∈ run, isJsWs c = true) (hrun : run ≠ []) (hcur : cur ≠ []) :
    wordsAux cur (run ++ r) = cur.reverse :: wordsAux [] r := by
  match run, hrun with
  | c :: run', _ =>
    have hc : isJsWs c = true := hr c (by simp)
    rw [List.cons_append,
      wordsAux_cons_ws cur c (run' ++ r) hc (isEmpty_false_of_ne_nil hcur),
      wordsAux_allws run' r (fun x hx => hr x (by simp [hx]))]

lemma wordsAux_ne_nil (r : List Char) :
    ∀ (cur : List Char), cur ≠ [] → wordsAux cur r ≠ [] := by
  induction r with
  | nil =>
    intro cur hcur
    simp [wordsAux, isEmpty_false_of_ne_nil hcur]
  | cons c cs ih =>
    intro cur hcur
    by_cases hc : isJsWs c = true
    · rw [wordsAux_cons_ws cur c cs hc (isEmpty_false_of_ne_nil hcur)]
      simp
    · have hc' : isJsWs c = false := by simpa using hc
      rw [wordsAux_cons_nonws cur c cs hc']
      exact ih (c :: cur) (by simp)

lemma collapseRuns_nonws_append (w : List Char) :
    ∀ (r : List Char), (∀ c ∈ w, isJsWs c = false) →
    collapseRuns false (w ++ r) = w ++ collapseRuns false r := by
  induction w with
  | nil => intro r _; simp
  | cons c w' ih =>
    intro r hw
    have hc : isJsWs c = false := hw c (by simp)
    rw [List.cons_append, collapseRuns_cons_nonws false c (w' ++ r) hc,
      ih r (fun x hx => hw x (by simp [hx]))]
    rfl

lemma collapseRuns_true_allws (run : List Char) :
    ∀ (r : List Char), (∀ c ∈ run, isJsWs c = true) →
    collapseRuns true (run ++ r) = collapseRuns true r := by
  induction run with
  | nil => intro r _; simp
  | cons c run' ih =>
    intro r hr
    have hc : isJsWs c = true := hr c (by simp)
    rw [List.cons_append, collapseRuns_true_ws c (run' ++ r) hc]
    exact ih r (fun x hx => hr x (by simp [hx]))

lemma collapseRuns_true_eq_false (r : List Char)
    (hr : ∀ c, r.head? = some c → isJsWs c = false) :
    collapseRuns true r = collapseRuns false r := by
  cases r with
  | nil => rfl
  | cons c cs =>
    have hc : isJsWs c = false := hr c rfl
    rw [collapseRuns_cons_nonws true c cs hc, collapseRuns_cons_nonws false c cs hc]

lemma collapseRuns_run (run X : List Char)
    (hr : ∀ c ∈ run, isJsWs c = true) (hrun : run ≠ [])
    (hX : ∀ c, X.head? = some c → isJsWs c = false) :
    collapseRuns false (run ++ X) = '-' :: collapseRuns false X := by
  match run, hrun with
  | c :: run', _ =>
    have hc : isJsWs c = true := hr c (by simp)
    rw [List.cons_append, collapseRuns_false_ws c (run' ++ X) hc,
      collapseRuns_true_allws run' X (fun x hx => hr x (by simp [hx])),
      collapseRuns_true_eq_false X hX]

lemma trimEnd_append (x : List Char) :
    ∀ (y : List Char),
    trimEnd (x ++ y) = if (trimEnd y).isEmpty then trimEnd x else x ++ trimEnd y := by
  induction x with
  | nil =>
    intro y
    by_cases h : (trimEnd y).isEmpty
    · have hy : trimEnd y = [] := List.isEmpty_iff.mp h
      simp [hy, trimEnd]
    · simp [h]
  | cons c x' ih =>
    intro y
    rw [List.cons_append, trimEnd_cons, ih y, trimEnd_cons]
    by_cases h : (trimEnd y).isEmpty
    · simp [h]
    · have hy : trimEnd y ≠ [] := fun hcon => h (by simp [hcon])
      have hne : (x' ++ trimEnd y).isEmpty = false :=
        isEmpty_false_of_ne_nil (by simp [hy])
      simp [h, hne]

lemma trimEnd_allws (l : List Char) (h : ∀ c ∈ l, isJsWs c = true) :
    trimEnd l = [] := by
  induction l with
  | nil => rfl
  | cons c cs ih =>
    have hc : isJsWs c = true := h c (by simp)
    have hcs := ih (fun x hx => h x (by simp [hx]))
    rw [trimEnd_cons, hcs]
    simp [hc]

lemma trimEnd_nonws (l : List Char) (h : ∀ c ∈ l, isJsWs c = false) :
    trimEnd l = l := by
  induction l with
  | nil => rfl
  | cons c cs ih =>
    have hc : isJsWs c = false := h c (by simp)
    have hcs := ih (fun x hx => h x (by simp [hx]))
    rw [trimEnd_cons, hcs]
    cases cs with
    | nil => simp [hc]
    | cons a t => simp

lemma trimEnd_cons_head (c : Char) (cs : List Char) (h : isJsWs c = false) :
    ∃ t, trimEnd (c :: cs) = c :: t := by
  rw [trimEnd_cons]
  by_cases hcs : (trimEnd cs).isEmpty
  · exact ⟨[], by simp [hcs, h]⟩
  · exact ⟨trimEnd cs, by simp [hcs]⟩

lemma head_of_dropWhile_eq_cons {p : Char → Bool} {l r : List Char} {d : Char}
    (h : l.dropWhile p = d :: r) : p d = false := by
  have := List.head?_dropWhile_not p l
  rw [h] at this
  simpa using this

/-- Trimming and collapsing whitespace runs into hyphens is the same as
joining the whitespace-separated words with single hyphens. -/
lemma collapse_trim_eq_joinWords :
    ∀ (n : Nat) (l : List Char), l.length ≤ n →
    collapseRuns false (trimEnd (trimStart l)) = joinWords (wordsAux [] l) := by
  intro n
  induction n with
  | zero =>
    intro l hl
    have : l = [] := List.length_eq_zero.mp (Nat.le_zero.mp hl)
    subst this
    rfl
  | succ n ih =>
    intro l hl
    match l with
    | [] => rfl
    | c :: cs =>
      have hcs : cs.length ≤ n := Nat.le_of_succ_le_succ (by simpa using hl)
      by_cases hc : isJsWs c = true
      · have h1 : trimStart (c :: cs) = trimStart cs := by
          simp [trimStart, List.dropWhile_cons, hc]
        have h2 : wordsAux [] (c :: cs) = wordsAux [] cs := by
          simp [wordsAux, hc]
        rw [h1, h2]
        exact ih cs hcs
      · have hc' : isJsWs c = false := by simpa using hc
        -- split cs into its leading non-whitespace part and the rest
        set nw : Char → Bool := fun x => !(isJsWs x) with hnw
        set a := cs.takeWhile nw with ha
        set r := cs.dropWhile nw with hrdef
        have hsplit : cs = a ++ r := (List.takeWhile_append_dropWhile nw cs).symm
        have hword : ∀ x ∈ c :: a, isJsWs x = false := by
          intro x hx
          rcases List.mem_cons.mp hx with hx | hx
          · subst hx; exact hc'
          · have := List.mem_takeWhile_imp (ha ▸ hx)
            simpa [hnw] using this
        have hts : trimStart (c :: cs) = c :: cs := by
          simp [trimStart, List.dropWhile_cons, hc']
        have hl2 : (c : Char) :: cs = (c :: a) ++ r := by
          simp [hsplit]
        cases hrcase : r with
        | nil =>
          -- the whole line is one word
          have hca : cs = a := by simpa [hrcase] using hsplit
          have hnn : trimEnd (c :: cs) = c :: cs :=
            trimEnd_nonws _ (by rw [hca]; exact hword)
          have hcoll : collapseRuns false (c :: cs) = c :: cs := by
            have h0 := collapseRuns_nonws_append (c :: a) [] hword
            rw [List.append_nil, collapseRuns_nil, List.append_nil] at h0
            rw [hca]
            exact h0
          have hwords : wordsAux [] (c :: cs) = [c :: cs] := by
            have h0 := wordsAux_word (c :: a) [] [] hword
            rw [List.append_nil, List.append_nil] at h0
            rw [hca, h0]
            simp [wordsAux]
          rw [hts, hnn, hcoll, hwords]
          rfl
        | cons d r' =>
          have hd : isJsWs d = true := by
            have := head_of_dropWhile_eq_cons (hrdef ▸ hrcase)
            simpa [hnw] using this
          -- split r into its whitespace run and the remainder
          set run := r.takeWhile isJsWs with hrun
          set r2 := r.dropWhile isJsWs with hr2
          have hrsplit : r = run ++ r2 := (List.takeWhile_append_dropWhile isJsWs r).symm
          have hrunws : ∀ x ∈ run, isJsWs x = true := by
            intro x hx
            exact List.mem_takeWhile_imp (hrun ▸ hx)
          have hrunne : run ≠ [] := by
            rw [hrun, hrcase]
            simp [List.takeWhile_cons, hd]
          have hr2head : ∀ x, r2.head? = some x → isJsWs x = false := by
            intro x hx
            have := List.head?_dropWhile_not isJsWs r
            rw [← hr2, hx] at this
            simpa using this
          have hlen_r : r.length ≤ cs.length := (hrdef ▸ List.dropWhile_sublist nw).length_le
          have hlen_r2 : r2.length ≤ n :=
            le_trans ((hr2 ▸ List.dropWhile_sublist isJsWs).length_le) (le_trans hlen_r hcs)
          cases hr2case : r2 with
          | nil =>
            -- word followed by trailing whitespace only
            have hrw : r = run := by simpa [hr2case] using hrsplit
            have hwords : wordsAux [] ((c :: a) ++ r) = [c :: a] := by
              have h0 := wordsAux_word (c :: a) r [] hword
              rw [List.append_nil] at h0
              have h1 := wordsAux_run_emit run [] ((c :: a).reverse) hrunws hrunne (by simp)
              rw [List.append_nil] at h1
              rw [h0, hrw, h1, List.reverse_reverse, wordsAux_nil_nil]
            have htrim : trimEnd ((c :: a) ++ r) = c :: a := by
              rw [trimEnd_append]
              have h0 : trimEnd r = [] := trimEnd_allws r (hrw ▸ hrunws)
              rw [h0]
              simp [trimEnd_nonws (c :: a) hword]
            have hcoll : collapseRuns false (c :: a) = c :: a := by
              have h0 := collapseRuns_nonws_append (c :: a) [] hword
              rw [List.append_nil, collapseRuns_nil, List.append_nil] at h0
              exact h0
            rw [hts, hl2, htrim, hcoll, hwords]
            rfl
          | cons e r2' =>
            have he : isJsWs e = false := hr2head e (by simp [hr2case])
            -- trimEnd r2 is nonempty and starts with e
            obtain ⟨t, ht⟩ := trimEnd_cons_head e r2' he
            have htr2 : trimEnd r2 = e :: t := by rw [hr2case]; exact ht
            have hwmid : wordsAux [] ((c :: a) ++ r) = (c :: a) :: wordsAux [] r2 := by
              have h0 := wordsAux_word (c :: a) r [] hword
              rw [List.append_nil] at h0
              rw [h0, hrsplit,
                wordsAux_run_emit run r2 ((c :: a).reverse) hrunws hrunne (by simp),
                List.reverse_reverse]
            have hw2ne : wordsAux [] r2 ≠ [] := by
              rw [hr2case, wordsAux_cons_nonws [] e r2' he]
              exact wordsAux_ne_nil r2' [e] (by simp)
            have htrim : trimEnd ((c :: a) ++ r) = (c :: a) ++ (run ++ trimEnd r2) := by
              rw [hrsplit, ← List.append_assoc, trimEnd_append, htr2]
              rw [if_neg (by simp)]
              simp [List.append_assoc]
            have hcoll : collapseRuns false ((c :: a) ++ (run ++ trimEnd r2)) =
                (c :: a) ++ '-' :: collapseRuns false (trimEnd r2) := by
              rw [collapseRuns_nonws_append (c :: a) _ hword,
                collapseRuns_run run (trimEnd r2) hrunws hrunne
                  (by intro x hx; rw [htr2] at hx; simp at hx; rw [← hx]; exact he)]
            have hts2 : trimStart r2 = r2 := by
              rw [hr2case]
              simp [trimStart, List.dropWhile_cons, he]
            have hih : collapseRuns false (trimEnd r2) = joinWords (wordsAux [] r2) := by
              have h0 := ih r2 hlen_r2
              rwa [hts2] at h0
            rw [hts, hl2, htrim, hcoll, hih, hwmid]
            match hw2 : wordsAux [] r2, hw2ne with
            | w :: ws', _ => rfl

/-- The source's `slugify` agrees with the specification's description of
slugification (lower-case, strip, and join the whitespace-separated words
with single hyphens). -/
lemma slugify_eq_slugifySpec (s : String) : slugify s = slugifySpec s := by
  unfold slugify slugifySpec wordsOf
  exact congrArg String.mk
    (collapse_trim_eq_joinWords _ _ (Nat.le_refl _))

lemma contains_eq_true_iff (l : List String) (a : String) :
    l.contains a = true ↔ a ∈ l := List.elem_iff

/-- A successful execution of the heading regex reports a marker count
between one and six. -/
lemma execHeadingCore_bounds (h : Nat) (R : List Char) (hh : Nat)
    (m2 : List Char) (he : execHeadingCore h R = some (hh, m2)) :
    1 ≤ hh ∧ hh ≤ 6 := by
  unfold execHeadingCore at he
  split at he
  · exact Option.noConfusion he
  · split at he
    · rename_i hcond
      split at he
      · split at he
        · split at he
          · split at he
            · exact Option.noConfusion he
            · simp only [Option.some.injEq, Prod.mk.injEq] at he
              exact he.1 ▸ ⟨hcond.1, hcond.2.1⟩
          · exact Option.noConfusion he
        · exact Option.noConfusion he
      · split at he
        · simp only [Option.some.injEq, Prod.mk.injEq] at he
          exact he.1 ▸ ⟨hcond.1, hcond.2.1⟩
        · exact Option.noConfusion he
    · exact Option.noConfusion he

/-- A successful execution of the heading regex reports a marker count
between one and six. -/
lemma execHeading_bounds (l : List Char) (hh : Nat) (m2 : List Char)
    (he : execHeading l = some (hh, m2)) : 1 ≤ hh ∧ hh ≤ 6 :=
  execHeadingCore_bounds _ _ hh m2 he

-- ---------------------------------------------------------------------------
-- Concrete fixtures used by the witnesses and counterexamples
-- ---------------------------------------------------------------------------

/-- A pre-existing corpus post whose slug collides with the slug derived from
the example submission below. -/
def exPostClash : Post :=
  { slug := "pottery-101", title := "Old pottery piece", author := "A",
    date := "2025-01-01", hero := "h", tags := ["ceramics"], minutes := 3,
    body := "old body" }

/-- A generic corpus post. -/
def exPostA : Post :=
  { slug := "digital-archaeology", title := "Digital Archaeology", author := "A",
    date := "2025-06-14", hero := "h", tags := ["technology"], minutes := 8,
    body := "some body" }

/-- The pending submission of the specification's example: title
"Pottery 101!" with empty raw tags and no cover. -/
def exSubPottery : Submission :=
  { id := 1, name := "N", email := "n@example.org", affiliation := "",
    title := "Pottery 101!", tags := "", cover := "", summary := "",
    body := "Ceramic bodies and firing.", agree := true, status := "pending",
    date := "2025-10-01" }

/-- A filled-in draft form whose consent box is unchecked. -/
def exFormBad : ContribForm :=
  { name := "N", email := "n@example.org", affiliation := "", title := "T",
    tags := "", cover := "", summary := "", body := "B", agree := false }

/-- A filled-in draft form with consent given. -/
def exFormGood : ContribForm :=
  { name := "N", email := "n@example.org", affiliation := "", title := "T",
    tags := "", cover := "", summary := "", body := "B", agree := true }

/-- A concrete parser for the store witness: accepts exactly the string "7". -/
def parseSeven : String → Except Unit Nat :=
  fun s => if s = "7" then Except.ok 7 else Except.error ()

-- ---------------------------------------------------------------------------
-- Claims
-- ---------------------------------------------------------------------------

/-- Claim C1, as stated, is false: approving a submission prepends the new
post without resolving collisions with existing slugs, so when a post with
the derived slug already exists the slug occurs twice afterwards, not once.
Here the corpus already holds a post with slug "pottery-101" and the
submission titled "Pottery 101!" derives that same slug. -/
theorem C1_slug_collision_counterexample :
    derivedSlug exSubPottery = "pottery-101" ∧
    countSlug [exPostClash] "pottery-101" = 1 ∧
    countSlug
      (approveAction exSubPottery "2025-10-12" ([exPostClash], [exSubPottery])).1
      "pottery-101" = 2 := by
  decide

/-- Claim C1 (amended): after approving a pending submission, the approved
id is absent from the pending list; the count of posts carrying the derived
slug grows by exactly one, so the derived slug is present exactly once
whenever no pre-existing post already carried it. -/
theorem C1_approve_amended (s : Submission) (today : String)
    (posts : List Post) (subs : List Submission) :
    (∀ x ∈ (approveAction s today (posts, subs)).2, x.id ≠ s.id) ∧
    (countSlug posts (derivedSlug s) = 0 →
      countSlug (approveAction s today (posts, subs)).1 (derivedSlug s) = 1) ∧
    countSlug (approveAction s today (posts, subs)).1 (derivedSlug s) =
      countSlug posts (derivedSlug s) + 1 := by
  have hstep : countSlug (approveAction s today (posts, subs)).1 (derivedSlug s) =
      countSlug posts (derivedSlug s) + 1 := by
    show countSlug (mkApprovedPost s today :: posts) (derivedSlug s) = _
    rw [countSlug, countSlug, List.filter_cons,
      if_pos (by simp [mkApprovedPost])]
    simp
  refine ⟨?_, ?_, hstep⟩
  · intro x hx
    have hx' : x ∈ subs.filter (fun y => y.id ≠ s.id) := hx
    simpa using (List.mem_filter.mp hx').2
  · intro h0
    rw [hstep, h0]

/-- Witness for the amended claim C1 at a concrete input with a fresh slug. -/
theorem C1_approve_amended_witness :
    countSlug (approveAction exSubPottery "2025-10-12" ([], [exSubPottery])).1
      (derivedSlug exSubPottery) = 1 :=
  (C1_approve_amended exSubPottery "2025-10-12" [] [exSubPottery]).2.1 (by decide)

/-- Claim C2: `approve` constructs the new post as specified — the derived
slug is the slugified title with the id-based fallback exactly on the empty
slug; tags come from comma-splitting, trimming and dropping empties (empty
raw tags give the empty list); the hero defaults to the fixed placeholder
when no cover was supplied; the minutes come from the reading-time estimator;
and the new post is prepended to the corpus.  The title "Pottery 101!"
slugifies to "pottery-101" and "!!!" slugifies to the empty string, which
triggers the fallback. -/
theorem C2_approve_construction (s : Submission) (today : String)
    (posts : List Post) (subs : List Submission) :
    (approveAction s today (posts, subs)).1 = mkApprovedPost s today :: posts ∧
    (mkApprovedPost s today).slug =
      (if slugify s.title = "" then "submission-" ++ Nat.repr s.id
       else slugify s.title) ∧
    (mkApprovedPost s today).tags = parseTags s.tags ∧
    (s.tags = "" → (mkApprovedPost s today).tags = []) ∧
    (s.cover = "" → (mkApprovedPost s today).hero = placeholderHero) ∧
    (mkApprovedPost s today).minutes = estimateMinutes s.body ∧
    slugify "Pottery 101!" = "pottery-101" ∧
    slugify "!!!" = "" := by
  refine ⟨rfl, rfl, rfl, ?_, ?_, rfl, by decide, by decide⟩
  · intro h
    simp [mkApprovedPost, parseTags, h]
  · intro h
    simp [mkApprovedPost, h]

/-- Witness for claim C2 at the example submission. -/
theorem C2_approve_construction_witness :
    (mkApprovedPost exSubPottery "2025-10-12").tags = [] ∧
    (mkApprovedPost exSubPottery "2025-10-12").hero = placeholderHero ∧
    (mkApprovedPost exSubPottery "2025-10-12").slug = "pottery-101" := by
  have h := C2_approve_construction exSubPottery "2025-10-12" [] []
  refine ⟨h.2.2.2.1 rfl, h.2.2.2.2.1 rfl, ?_⟩
  rw [h.2.1]
  decide

/-- Claim C3: `submit` validates and is atomic — with a missing required
field or without consent the state (pending list and draft form) is
unchanged; with all required fields present and consent given, exactly one
new pending submission with the timestamp id is prepended and the form is
cleared. -/
theorem C3_submit_validation (now : Nat) (dateStr : String)
    (st : List Submission × ContribForm) :
    ((st.2.name = "" ∨ st.2.email = "" ∨ st.2.title = "" ∨ st.2.body = "" ∨
        st.2.agree = false) → submitAction now dateStr st = st) ∧
    (st.2.name ≠ "" → st.2.email ≠ "" → st.2.title ≠ "" → st.2.body ≠ "" →
      st.2.agree = true →
      (submitAction now dateStr st).1 = mkSubmission now dateStr st.2 :: st.1 ∧
      (mkSubmission now dateStr st.2).status = "pending" ∧
      (mkSubmission now dateStr st.2).id = now ∧
      (submitAction now dateStr st).2 = emptyForm) := by
  constructor
  · intro h
    rw [submitAction, if_pos h]
  · intro h1 h2 h3 h4 h5
    have hcond : ¬ (st.2.name = "" ∨ st.2.email = "" ∨ st.2.title = "" ∨
        st.2.body = "" ∨ st.2.agree = false) := by
      simp [h1, h2, h3, h4, h5]
    rw [submitAction, if_neg hcond]
    exact ⟨rfl, rfl, rfl, rfl⟩

/-- Witness for claim C3: consent withheld leaves the state unchanged; a
valid form prepends exactly the new pending record. -/
theorem C3_submit_validation_witness :
    submitAction 5 "2025-10-12" ([], exFormBad) = ([], exFormBad) ∧
    (submitAction 5 "2025-10-12" ([], exFormGood)).1 =
      [mkSubmission 5 "2025-10-12" exFormGood] ∧
    (submitAction 5 "2025-10-12" ([], exFormGood)).2 = emptyForm := by
  have hbad := (C3_submit_validation 5 "2025-10-12" ([], exFormBad)).1
    (Or.inr (Or.inr (Or.inr (Or.inr rfl))))
  have hgood := (C3_submit_validation 5 "2025-10-12" ([], exFormGood)).2
    (by decide) (by decide) (by decide) (by decide) rfl
  exact ⟨hbad, hgood.1, hgood.2.2.2⟩

/-- Claim C5: searching with the empty query is the identity on the corpus
(the very list, hence the same multiset); with a non-empty query the result
consists of corpus posts whenever the external fuzzy matcher returns items
of the indexed corpus, which is its contract. -/
theorem C5_empty_query_identity (search : List Post → String → List Post)
    (posts : List Post) :
    filteredPosts search posts "" = posts ∧
    (∀ q : String, q ≠ "" → (∀ p ∈ search posts q, p ∈ posts) →
      ∀ p ∈ filteredPosts search posts q, p ∈ posts) := by
  refine ⟨by rw [filteredPosts, if_pos rfl], ?_⟩
  intro q hq hsub p hp
  rw [filteredPosts, if_neg hq] at hp
  exact hsub p hp

/-- Witness for claim C5 at a concrete corpus and search function. -/
theorem C5_empty_query_identity_witness :
    filteredPosts (fun _ _ => []) [exPostA] "" = [exPostA] ∧
    ∀ p ∈ filteredPosts (fun _ _ => []) [exPostA] "x", p ∈ [exPostA] :=
  ⟨(C5_empty_query_identity (fun _ _ => []) [exPostA]).1,
   (C5_empty_query_identity (fun _ _ => []) [exPostA]).2 "x" (by decide)
     (by intro p hp; exact absurd hp (List.not_mem_nil p))⟩

/-- Claim C7: toggling a bookmark twice restores the membership of every
slug (toggle removes the slug when present and appends it when absent). -/
theorem C7_double_toggle (bm : List String) (s t : String) :
    t ∈ toggleBookmark s (toggleBookmark s bm) ↔ t ∈ bm := by
  by_cases hs : s ∈ bm
  · have h1 : bm.contains s = true := (contains_eq_true_iff bm s).mpr hs
    have h2 : (bm.filter (fun x => x ≠ s)).contains s = false := by
      cases hcb : (bm.filter (fun x => x ≠ s)).contains s with
      | false => rfl
      | true =>
        have := (contains_eq_true_iff _ _).mp hcb
        simp at this
    have e1 : toggleBookmark s bm = bm.filter (fun x => x ≠ s) := by
      rw [toggleBookmark, if_pos h1]
    rw [e1, toggleBookmark, if_neg (by simp [h2])]
    simp only [List.mem_append, List.mem_filter, List.mem_singleton,
      decide_eq_true_eq]
    constructor
    · rintro (⟨hmem, _⟩ | rfl)
      · exact hmem
      · exact hs
    · intro ht
      by_cases hts : t = s
      · exact Or.inr hts
      · exact Or.inl ⟨ht, hts⟩
  · have h1 : bm.contains s = false := by
      cases hcb : bm.contains s with
      | false => rfl
      | true => exact absurd ((contains_eq_true_iff bm s).mp hcb) hs
    have h2 : (bm ++ [s]).contains s = true :=
      (contains_eq_true_iff _ _).mpr (by simp)
    have e1 : toggleBookmark s bm = bm ++ [s] := by
      rw [toggleBookmark,
        if_neg (fun hc => hs ((contains_eq_true_iff bm s).mp hc))]
    rw [e1, toggleBookmark, if_pos h2]
    simp only [List.mem_filter, List.mem_append, List.mem_singleton,
      decide_eq_true_eq]
    constructor
    · rintro ⟨ht | rfl, hne⟩
      · exact ht
      · exact absurd rfl hne
    · intro ht
      exact ⟨Or.inl ht, fun hcon => hs (hcon ▸ ht)⟩

/-- Claim C8: the reading-time estimate is the maximum of three and the
rounded quotient of the whitespace-split word count by 220, hence always at
least three ((n + 110) / 220 is round-half-up of n / 220 in naturals). -/
theorem C8_reading_time (b : String) :
    estimateMinutes b =
      Nat.max 3 (((splitWsFields b.toList).length + 110) / 220) ∧
    3 ≤ estimateMinutes b := by
  constructor
  · unfold estimateMinutes jsRound220
    congr 1
    have h : 2 * (splitWsFields b.toList).length + 220 =
        2 * ((splitWsFields b.toList).length + 110) := by ring
    rw [h, show (440 : Nat) = 2 * 220 from rfl,
      Nat.mul_div_mul_left _ _ (by norm_num : (0 : Nat) < 2)]
  · exact Nat.le_max_left _ _

/-- Claim C9: the store read returns the saved value when one exists and
parses, and the default on a read failure, a missing key, or an unparsable
value — never a raised failure (the function is total); the store write
swallows persistence failures, so the in-memory mutation always takes
effect. -/
theorem C9_store_fallback (α : Type) (fallback : α)
    (parse : String → Except Unit α) :
    loadLS (Except.error ()) parse fallback = fallback ∧
    loadLS (Except.ok none) parse fallback = fallback ∧
    (∀ v, parse v = Except.error () →
      loadLS (Except.ok (some v)) parse fallback = fallback) ∧
    (∀ v x, parse "" = Except.error () → parse v = Except.ok x →
      loadLS (Except.ok (some v)) parse fallback = x) ∧
    (∀ (newVal : α) (setItem : Except Unit Unit)
      (store : List (String × String)) (key ser : String),
      (mutateWithPersist newVal setItem store key ser).1 = newVal) := by
  refine ⟨rfl, rfl, ?_, ?_, ?_⟩
  · intro v hv
    by_cases hve : v = ""
    · simp [loadLS, hve]
    · simp [loadLS, hve, hv]
  · intro v x hemp hv
    have hve : v ≠ "" := by
      intro hcon
      rw [hcon, hemp] at hv
      exact Except.noConfusion hv
    simp [loadLS, hve, hv]
  · intro newVal setItem store key ser
    rfl

/-- Witness for claim C9 at a concrete parser: a stored parsable value is
returned, an unparsable one falls back. -/
theorem C9_store_fallback_witness :
    loadLS (Except.ok (some "7")) parseSeven 0 = 7 ∧
    loadLS (Except.ok (some "x")) parseSeven 0 = 0 :=
  ⟨(C9_store_fallback Nat 0 parseSeven).2.2.2.1 "7" 7 rfl rfl,
   (C9_store_fallback Nat 0 parseSeven).2.2.1 "x" rfl⟩

/-- Claim C10: the blog listing composes search and tag filtering in that
order — the displayed list is the tag filter applied to the ranked search
results (hence a sublist of them, preserving the ranking); with no selected
tag the search results are shown unchanged. -/
theorem C10_search_then_filter (search : List Post → String → List Post)
    (posts : List Post) (q : String) (t : String) :
    displayedPosts search posts q (some t) =
      (filteredPosts search posts q).filter (fun p => p.tags.contains t) ∧
    List.Sublist (displayedPosts search posts q (some t))
      (filteredPosts search posts q) ∧
    displayedPosts search posts q none = filteredPosts search posts q := by
  refine ⟨rfl, ?_, rfl⟩
  exact List.filter_sublist _

/-- Claim C4, as stated, is false: heading texts are the captured remainder
with only backquotes removed — markdown emphasis markers survive.  The line
with the emphasised word yields the text "*x*", not the "x" that stripping
inline emphasis markers would produce (the anchor id nevertheless loses the
asterisks, because slugification strips them). -/
theorem C4_emphasis_counterexample :
    buildToc "## *x*" = [{ level := 2, text := "*x*", id := "x" }] ∧
    stripEmphasisSpec "*x*" = "x" ∧
    ("*x*" : String) ≠ "x" := by
  decide

/-- Claim C4 (amended): the TOC is the in-order sequence of entries of the
heading lines (one-to-six markers, whitespace, text); each entry's level is
the marker count and lies between one and six, its text is the remainder
with inline code backquotes (not emphasis markers) removed, and its id is
the slugification of that text, where the source's slugification provably
equals the specification's description of it (lower-case, strip characters
outside the allowed class, trim, collapse whitespace runs to single
hyphens).  The heading "## Form & function" produces level 2, text
"Form & function" and id "form-function". -/
theorem C4_toc_amended :
    buildToc "## Form & function" =
      [{ level := 2, text := "Form & function", id := "form-function" }] ∧
    (∀ (body : String) (e : TocEntry), e ∈ buildToc body →
      1 ≤ e.level ∧ e.level ≤ 6 ∧ e.id = slugify e.text ∧
      e.id = slugifySpec e.text) := by
  constructor
  · decide
  · intro body e he
    rw [buildToc] at he
    rcases List.mem_filterMap.mp he with ⟨ln, _, hln⟩
    rw [headingEntry] at hln
    rcases hexec : execHeading ln with _ | ⟨hh, m2⟩
    · rw [hexec] at hln
      exact Option.noConfusion hln
    · rw [hexec] at hln
      simp only [Option.map_some', Option.some.injEq] at hln
      have hbounds := execHeading_bounds ln hh m2 hexec
      rw [← hln]
      exact ⟨hbounds.1, hbounds.2, rfl, slugify_eq_slugifySpec _⟩

/-- Witness for the amended claim C4 at the specification's example
heading. -/
theorem C4_toc_amended_witness :
    1 ≤ (2 : Nat) ∧ (2 : Nat) ≤ 6 ∧
    ("form-function" : String) = slugify "Form & function" ∧
    ("form-function" : String) = slugifySpec "Form & function" :=
  C4_toc_amended.2 "## Form & function"
    { level := 2, text := "Form & function", id := "form-function" } (by decide)

/-- Claim C6 is right and the code is wrong: the renderer's splitting regex
deliberately isolates the glossary word "sherds", but the lookup key is the
naive singularization "sherd", which is not a key of the glossary (whose key
is the plural "sherds"), so the occurrence is never annotated — contradicting
the glossary's stated purpose.  Terms whose key survives singularization
("typological") are annotated, and the bare singular "sherd" is not
over-matched, as the claim also states. -/
theorem C6_sherds_not_annotated :
    glossaryGet "sherds" =
      some "Broken pieces of ceramic material found at sites." ∧
    annotateText "sherds" = [("", false), ("sherds", false), ("", false)] ∧
    annotateText "typological" =
      [("", false), ("typological", true), ("", false)] ∧
    annotateText "sherd" = [("sherd", false)] := by
  decide

end ArchWala
